import Mathlib

/-!
Verification of the in-memory truck registry (`main.go`).

The Go program keeps a map `trucks : map[string]*Truck` inside a
`truckManager`, guarded by one `sync.RWMutex`, and exposes four
operations: `AddTruck`, `GetTruck`, `UpdateTruckCargo`, `RemoveTruck`.

Embedding choices:
- the map is an association list `List (String × Truck)` with unique keys
  (Go maps have unique keys; all operations below preserve uniqueness);
- Go `int` cargo is modelled as `Int` (the program only compares with 0,
  so no overflow behaviour is involved);
- each method takes the receiver state explicitly and returns the result
  together with the post-state; `GetTruck` returns a `Truck` value, which
  mirrors the Go code returning the dereferenced copy `*truck`;
- the mutex serialises the methods, so concurrent executions are modelled
  as an arbitrary sequential order of the atomic calls.
-/

namespace Fleet

/-- A truck record: identifier and cargo capacity (Go `struct Truck`). -/
structure Truck where
  ID : String
  Cargo : Int
  deriving DecidableEq, Repr

/-- The four error values declared at the top of `main.go`. -/
inductive FleetError where
  | truckNotFound
  | truckExist
  | invalidCargo
  | emptyID
  deriving DecidableEq, Repr

/-- The registry state: the contents of the Go map `trucks`. -/
abbrev truckManager := List (String × Truck)

/-- `NewTruckManager` creates an empty registry. -/
def NewTruckManager : truckManager := []

/-- Go map lookup `tm.trucks[id]`. -/
def findTruck : truckManager → String → Option Truck
  | [], _ => none
  | p :: rest, id => if p.1 = id then some p.2 else findTruck rest id

/-- In-place mutation `truck.Cargo = cargo` through the stored pointer:
the entry for `id` gets the new cargo, all other entries are untouched. -/
def setCargo : truckManager → String → Int → truckManager
  | [], _, _ => []
  | p :: rest, id, c =>
      if p.1 = id then (p.1, { p.2 with Cargo := c }) :: setCargo rest id c
      else p :: setCargo rest id c

/-- Go map deletion `delete(tm.trucks, id)`. -/
def eraseKey : truckManager → String → truckManager
  | [], _ => []
  | p :: rest, id =>
      if p.1 = id then eraseKey rest id else p :: eraseKey rest id

/-- `AddTruck` from `main.go`: validate `id`, validate `cargo`, check for
an existing entry, then insert `&Truck{ID: id, Cargo: cargo}`. -/
def AddTruck (tm : truckManager) (id : String) (cargo : Int) :
    Except FleetError Unit × truckManager :=
  if id = "" then (.error .emptyID, tm)
  else if cargo < 0 then (.error .invalidCargo, tm)
  else match findTruck tm id with
    | some _ => (.error .truckExist, tm)
    | none => (.ok (), (id, { ID := id, Cargo := cargo }) :: tm)

/-- `GetTruck` from `main.go`: validate `id`, look the entry up, and
return the dereferenced copy `*truck`; the map is never written. -/
def GetTruck (tm : truckManager) (id : String) :
    Except FleetError Truck × truckManager :=
  if id = "" then (.error .emptyID, tm)
  else match findTruck tm id with
    | none => (.error .truckNotFound, tm)
    | some truck => (.ok truck, tm)

/-- `UpdateTruckCargo` from `main.go`: validate `id`, validate `cargo`,
look the entry up, then assign `truck.Cargo = cargo` in place. -/
def UpdateTruckCargo (tm : truckManager) (id : String) (cargo : Int) :
    Except FleetError Unit × truckManager :=
  if id = "" then (.error .emptyID, tm)
  else if cargo < 0 then (.error .invalidCargo, tm)
  else match findTruck tm id with
    | none => (.error .truckNotFound, tm)
    | some _ => (.ok (), setCargo tm id cargo)

/-- `RemoveTruck` from `main.go`: validate `id`, check existence, then
`delete(tm.trucks, id)`. -/
def RemoveTruck (tm : truckManager) (id : String) :
    Except FleetError Unit × truckManager :=
  if id = "" then (.error .emptyID, tm)
  else match findTruck tm id with
    | none => (.error .truckNotFound, tm)
    | some _ => (.ok (), eraseKey tm id)

/-- The spec's registry invariant: stored keys are non-empty and unique,
and every stored cargo is non-negative. -/
def Inv (tm : truckManager) : Prop :=
  (∀ p ∈ tm, p.1 ≠ "" ∧ 0 ≤ p.2.Cargo) ∧ (tm.map Prod.fst).Nodup

instance (tm : truckManager) : Decidable (Inv tm) := by
  unfold Inv; infer_instance

/-- Reachable states also store each record under its own `ID` field:
`AddTruck` always inserts `Truck{ID: id}` under key `id`. -/
def KeysMatch (tm : truckManager) : Prop :=
  ∀ p ∈ tm, p.2.ID = p.1

instance (tm : truckManager) : Decidable (KeysMatch tm) := by
  unfold KeysMatch; infer_instance

/-- Sequential execution of a batch of `AddTruck` calls: the single
write lock in `main.go` serialises concurrent adds into some such order. -/
def addAll (tm : truckManager) (ops : List (String × Int)) : truckManager :=
  ops.foldl (fun s op => (AddTruck s op.1 op.2).2) tm

/-! Helper lemmas about the map primitives. -/

theorem findTruck_nil (id : String) : findTruck [] id = none := rfl

theorem findTruck_cons (p : String × Truck) (rest : truckManager) (id : String) :
    findTruck (p :: rest) id =
      if p.1 = id then some p.2 else findTruck rest id := rfl

theorem findTruck_mem {tm : truckManager} {id : String} {t : Truck}
    (h : findTruck tm id = some t) : (id, t) ∈ tm := by
  induction tm with
  | nil => simp [findTruck] at h
  | cons p rest ih =>
      rw [findTruck_cons] at h
      by_cases hp : p.1 = id
      · rw [if_pos hp] at h
        injection h with h
        subst h
        obtain ⟨p1, p2⟩ := p
        cases hp
        exact List.mem_cons_self _ _
      · rw [if_neg hp] at h
        exact List.mem_cons_of_mem _ (ih h)

theorem findTruck_eq_none {tm : truckManager} {id : String} :
    findTruck tm id = none ↔ id ∉ tm.map Prod.fst := by
  induction tm with
  | nil => simp [findTruck]
  | cons p rest ih =>
      rw [findTruck_cons]
      by_cases hp : p.1 = id
      · simp [hp]
      · simp [hp, ih, Ne.symm hp]

theorem setCargo_map_fst (tm : truckManager) (id : String) (c : Int) :
    (setCargo tm id c).map Prod.fst = tm.map Prod.fst := by
  induction tm with
  | nil => rfl
  | cons p rest ih =>
      by_cases hp : p.1 = id <;> simp [setCargo, hp, ih]

theorem findTruck_setCargo_self (tm : truckManager) (id : String) (c : Int) :
    findTruck (setCargo tm id c) id =
      (findTruck tm id).map (fun t => { t with Cargo := c }) := by
  induction tm with
  | nil => rfl
  | cons p rest ih =>
      by_cases hp : p.1 = id
      · simp [setCargo, findTruck, hp]
      · simp [setCargo, findTruck, hp, ih]

theorem findTruck_setCargo_ne (tm : truckManager) {id k : String} (c : Int)
    (h : k ≠ id) :
    findTruck (setCargo tm id c) k = findTruck tm k := by
  induction tm with
  | nil => rfl
  | cons p rest ih =>
      by_cases hp : p.1 = id
      · have hk : p.1 ≠ k := by rw [hp]; exact Ne.symm h
        simp [setCargo, findTruck, hp, hk, ih, Ne.symm h]
      · by_cases hpk : p.1 = k <;>
          simp [setCargo, findTruck, hp, hpk, ih, h]

theorem mem_setCargo {tm : truckManager} {id : String} {c : Int}
    {p : String × Truck} (h : p ∈ setCargo tm id c) :
    ∃ q ∈ tm, p.1 = q.1 ∧ p.2.ID = q.2.ID ∧
      (p.2.Cargo = q.2.Cargo ∨ p.2.Cargo = c) := by
  induction tm with
  | nil => simp [setCargo] at h
  | cons q rest ih =>
      by_cases hq : q.1 = id
      · simp only [setCargo, if_pos hq, List.mem_cons] at h
        rcases h with h | h
        · exact ⟨q, List.mem_cons_self _ _, by simp [h]⟩
        · obtain ⟨r, hr, hrs⟩ := ih h
          exact ⟨r, List.mem_cons_of_mem _ hr, hrs⟩
      · simp only [setCargo, if_neg hq, List.mem_cons] at h
        rcases h with h | h
        · exact ⟨q, List.mem_cons_self _ _, by simp [h]⟩
        · obtain ⟨r, hr, hrs⟩ := ih h
          exact ⟨r, List.mem_cons_of_mem _ hr, hrs⟩

theorem eraseKey_sublist (tm : truckManager) (id : String) :
    (eraseKey tm id).Sublist tm := by
  induction tm with
  | nil => simp [eraseKey]
  | cons p rest ih =>
      by_cases hp : p.1 = id
      · simpa [eraseKey, hp] using ih.cons p
      · simpa [eraseKey, hp] using ih.cons₂ p

theorem findTruck_eraseKey_self (tm : truckManager) (id : String) :
    findTruck (eraseKey tm id) id = none := by
  induction tm with
  | nil => rfl
  | cons p rest ih =>
      by_cases hp : p.1 = id <;> simp [eraseKey, findTruck, hp, ih]

theorem getTruck_state (tm : truckManager) (id : String) :
    (GetTruck tm id).2 = tm := by
  unfold GetTruck
  by_cases h1 : id = ""
  · simp [h1]
  · cases hf : findTruck tm id <;> simp [h1, hf]

theorem addTruck_state_cases (tm : truckManager) (id : String) (cargo : Int) :
    (AddTruck tm id cargo).2 = tm ∨
    (AddTruck tm id cargo).2 = (id, { ID := id, Cargo := cargo }) :: tm := by
  unfold AddTruck
  by_cases h1 : id = ""
  · left; simp [h1]
  · by_cases h2 : cargo < 0
    · left; simp [h1, h2]
    · cases hf : findTruck tm id with
      | some t => left; simp [h1, h2, hf]
      | none => right; simp [h1, h2, hf]

theorem updateTruckCargo_state_cases (tm : truckManager) (id : String)
    (cargo : Int) :
    (UpdateTruckCargo tm id cargo).2 = tm ∨
    (0 ≤ cargo ∧
      (UpdateTruckCargo tm id cargo).2 = setCargo tm id cargo) := by
  unfold UpdateTruckCargo
  by_cases h1 : id = ""
  · left; simp [h1]
  · by_cases h2 : cargo < 0
    · left; simp [h1, h2]
    · cases hf : findTruck tm id with
      | some t => right; exact ⟨not_lt.mp h2, by simp [h1, h2, hf]⟩
      | none => left; simp [h1, h2, hf]

theorem removeTruck_state_cases (tm : truckManager) (id : String) :
    (RemoveTruck tm id).2 = tm ∨ (RemoveTruck tm id).2 = eraseKey tm id := by
  unfold RemoveTruck
  by_cases h1 : id = ""
  · left; simp [h1]
  · cases hf : findTruck tm id with
    | some t => right; simp [h1, hf]
    | none => left; simp [h1, hf]

/-! The claim theorems. -/

/-- C1: for every non-empty `id` not already in the registry and every
`cargo ≥ 0`, `AddTruck id cargo` succeeds and a subsequent `GetTruck id`
returns the record `{id, cargo}` with no error. -/
theorem addTruck_then_getTruck (tm : truckManager) (id : String) (cargo : Int)
    (hid : id ≠ "") (habs : findTruck tm id = none) (hc : 0 ≤ cargo) :
    (AddTruck tm id cargo).1 = .ok () ∧
    (GetTruck (AddTruck tm id cargo).2 id).1 =
      .ok { ID := id, Cargo := cargo } := by
  simp [AddTruck, GetTruck, hid, habs, not_lt.mpr hc, findTruck]

theorem addTruck_then_getTruck_witness :
    (AddTruck [] "truck1" 1000).1 = .ok () ∧
    (GetTruck (AddTruck [] "truck1" 1000).2 "truck1").1 =
      .ok { ID := "truck1", Cargo := 1000 } :=
  addTruck_then_getTruck [] "truck1" 1000 (by decide) rfl (by decide)

/-- C3: `AddTruck` fails with `emptyID` on an empty id, with `invalidCargo`
on a negative cargo, with `truckExist` on a present id; otherwise it
succeeds, inserts the record, and the size grows by exactly one; and every
call returns `ok` or exactly one of those three error kinds. -/
theorem addTruck_cases (tm : truckManager) (id : String) (cargo : Int) :
    (id = "" → AddTruck tm id cargo = (.error .emptyID, tm)) ∧
    (id ≠ "" → cargo < 0 →
      AddTruck tm id cargo = (.error .invalidCargo, tm)) ∧
    (id ≠ "" → 0 ≤ cargo → (findTruck tm id).isSome →
      AddTruck tm id cargo = (.error .truckExist, tm)) ∧
    (id ≠ "" → 0 ≤ cargo → findTruck tm id = none →
      (AddTruck tm id cargo).1 = .ok () ∧
      (AddTruck tm id cargo).2.length = tm.length + 1 ∧
      findTruck (AddTruck tm id cargo).2 id =
        some { ID := id, Cargo := cargo }) ∧
    ((AddTruck tm id cargo).1 = .ok () ∨
      (AddTruck tm id cargo).1 = .error .emptyID ∨
      (AddTruck tm id cargo).1 = .error .invalidCargo ∨
      (AddTruck tm id cargo).1 = .error .truckExist) := by
  refine ⟨fun h1 => by simp [AddTruck, h1], ?_, ?_, ?_, ?_⟩
  · intro h1 h2
    simp [AddTruck, h1, h2]
  · intro h1 h2 h3
    cases hf : findTruck tm id with
    | some t => simp [AddTruck, h1, not_lt.mpr h2, hf]
    | none => rw [hf] at h3; simp at h3
  · intro h1 h2 h3
    simp [AddTruck, h1, not_lt.mpr h2, h3, findTruck]
  · by_cases h1 : id = ""
    · simp [AddTruck, h1]
    · by_cases h2 : cargo < 0
      · simp [AddTruck, h1, h2]
      · cases hf : findTruck tm id with
        | some t => simp [AddTruck, h1, h2, hf]
        | none => simp [AddTruck, h1, h2, hf]

theorem addTruck_cases_witness :
    (AddTruck [] "a" 5).1 = .ok () ∧
    (AddTruck [] "a" 5).2.length = ([] : truckManager).length + 1 ∧
    findTruck (AddTruck [] "a" 5).2 "a" = some { ID := "a", Cargo := 5 } :=
  (addTruck_cases [] "a" 5).2.2.2.1 (by decide) (by decide) rfl

/-- C4: whenever `AddTruck` returns an error, the registry is completely
unchanged; in particular every lookup, including the one for the
duplicated id, yields exactly what it yielded before the call. -/
theorem addTruck_error_frame (tm : truckManager) (id : String) (cargo : Int)
    (e : FleetError) (h : (AddTruck tm id cargo).1 = .error e) :
    (AddTruck tm id cargo).2 = tm ∧
    ∀ k, findTruck (AddTruck tm id cargo).2 k = findTruck tm k := by
  unfold AddTruck at h ⊢
  by_cases h1 : id = ""
  · simp [h1]
  · by_cases h2 : cargo < 0
    · simp [h1, h2]
    · cases hf : findTruck tm id with
      | some t => simp [h1, h2, hf]
      | none => simp [h1, h2, hf] at h

theorem addTruck_error_frame_witness :
    (AddTruck [("a", { ID := "a", Cargo := 1 })] "a" 99).2 =
      [("a", { ID := "a", Cargo := 1 })] ∧
    findTruck (AddTruck [("a", { ID := "a", Cargo := 1 })] "a" 99).2 "a" =
      findTruck [("a", { ID := "a", Cargo := 1 })] "a" := by
  have h := addTruck_error_frame [("a", { ID := "a", Cargo := 1 })] "a" 99
    .truckExist rfl
  exact ⟨h.1, h.2 "a"⟩

/-- C6: for every registry containing a non-empty `id`, `RemoveTruck id`
succeeds and a subsequent `GetTruck id` fails with `truckNotFound`. -/
theorem removeTruck_then_getTruck (tm : truckManager) (id : String)
    (t : Truck) (hid : id ≠ "") (hf : findTruck tm id = some t) :
    (RemoveTruck tm id).1 = .ok () ∧
    (GetTruck (RemoveTruck tm id).2 id).1 = .error .truckNotFound := by
  simp [RemoveTruck, GetTruck, hid, hf, findTruck_eraseKey_self]

theorem removeTruck_then_getTruck_witness :
    (RemoveTruck [("a", { ID := "a", Cargo := 2 })] "a").1 = .ok () ∧
    (GetTruck (RemoveTruck [("a", { ID := "a", Cargo := 2 })] "a").2 "a").1 =
      .error .truckNotFound :=
  removeTruck_then_getTruck [("a", { ID := "a", Cargo := 2 })] "a"
    { ID := "a", Cargo := 2 } (by decide) rfl

/-- C7: on a non-empty `id` absent from the registry, `GetTruck`,
`UpdateTruckCargo` (with non-negative cargo) and `RemoveTruck` all fail
with `truckNotFound`. -/
theorem absent_id_notFound (tm : truckManager) (id : String) (cargo : Int)
    (hid : id ≠ "") (hf : findTruck tm id = none) (hc : 0 ≤ cargo) :
    (GetTruck tm id).1 = .error .truckNotFound ∧
    (UpdateTruckCargo tm id cargo).1 = .error .truckNotFound ∧
    (RemoveTruck tm id).1 = .error .truckNotFound := by
  simp [GetTruck, UpdateTruckCargo, RemoveTruck, hid, hf, not_lt.mpr hc]

theorem absent_id_notFound_witness :
    (GetTruck [] "z").1 = .error .truckNotFound ∧
    (UpdateTruckCargo [] "z" 3).1 = .error .truckNotFound ∧
    (RemoveTruck [] "z").1 = .error .truckNotFound :=
  absent_id_notFound [] "z" 3 (by decide) rfl (by decide)

/-- C8: `GetTruck` never modifies the registry: the post-state equals the
pre-state, every lookup is unchanged, and on success the returned record
is a value equal to the stored one (the Go code returns the dereferenced
copy `*truck`, so caller mutation cannot reach the store). -/
theorem getTruck_pure (tm : truckManager) (id : String) :
    (GetTruck tm id).2 = tm ∧
    (∀ k, findTruck (GetTruck tm id).2 k = findTruck tm k) ∧
    (∀ t, (GetTruck tm id).1 = .ok t → findTruck tm id = some t) := by
  refine ⟨getTruck_state tm id, fun k => by rw [getTruck_state], ?_⟩
  intro t ht
  unfold GetTruck at ht
  by_cases h1 : id = ""
  · simp [h1] at ht
  · cases hf : findTruck tm id with
    | some u => simp [h1, hf] at ht; rw [ht]
    | none => simp [h1, hf] at ht

theorem getTruck_pure_witness :
    (GetTruck [("a", { ID := "a", Cargo := 2 })] "a").2 =
      [("a", { ID := "a", Cargo := 2 })] ∧
    findTruck [("a", { ID := "a", Cargo := 2 })] "a" =
      some { ID := "a", Cargo := 2 } := by
  have h := getTruck_pure [("a", { ID := "a", Cargo := 2 })] "a"
  exact ⟨h.1, h.2.2 { ID := "a", Cargo := 2 } rfl⟩

/-- C10: when the id is empty and the cargo negative, both `AddTruck` and
`UpdateTruckCargo` report `emptyID`, not `invalidCargo`: the empty-id
check is decided first in both operations. -/
theorem emptyID_precedence (tm : truckManager) (id : String) (cargo : Int)
    (h1 : id = "") (_h2 : cargo < 0) :
    (AddTruck tm id cargo).1 = .error .emptyID ∧
    (UpdateTruckCargo tm id cargo).1 = .error .emptyID := by
  simp [AddTruck, UpdateTruckCargo, h1]

theorem emptyID_precedence_witness :
    (AddTruck [] "" (-1)).1 = .error .emptyID ∧
    (UpdateTruckCargo [] "" (-1)).1 = .error .emptyID :=
  emptyID_precedence [] "" (-1) rfl (by decide)

theorem inv_setCargo {tm : truckManager} (h : Inv tm) {c : Int}
    (hc : 0 ≤ c) (id : String) : Inv (setCargo tm id c) := by
  obtain ⟨hall, hnodup⟩ := h
  refine ⟨fun p hp => ?_, ?_⟩
  · obtain ⟨q, hq, h1, _, h3⟩ := mem_setCargo hp
    rcases h3 with h3 | h3
    · exact ⟨h1 ▸ (hall q hq).1, h3 ▸ (hall q hq).2⟩
    · exact ⟨h1 ▸ (hall q hq).1, h3 ▸ hc⟩
  · rw [setCargo_map_fst]
    exact hnodup

theorem inv_eraseKey {tm : truckManager} (h : Inv tm) (id : String) :
    Inv (eraseKey tm id) := by
  obtain ⟨hall, hnodup⟩ := h
  exact ⟨fun p hp => hall p ((eraseKey_sublist tm id).subset hp),
    hnodup.sublist ((eraseKey_sublist tm id).map Prod.fst)⟩

/-- C2: the registry invariant (non-empty unique keys, non-negative
cargos) holds for `NewTruckManager` and is preserved by every operation,
whether it succeeds or fails. -/
theorem inv_preserved :
    Inv NewTruckManager ∧
    ∀ tm id cargo, Inv tm →
      Inv (AddTruck tm id cargo).2 ∧
      Inv (GetTruck tm id).2 ∧
      Inv (UpdateTruckCargo tm id cargo).2 ∧
      Inv (RemoveTruck tm id).2 := by
  constructor
  · exact ⟨by simp [NewTruckManager], by simp [NewTruckManager]⟩
  intro tm id cargo hinv
  refine ⟨?_, ?_, ?_, ?_⟩
  · unfold AddTruck
    by_cases h1 : id = ""
    · simpa [h1] using hinv
    · by_cases h2 : cargo < 0
      · simpa [h1, h2] using hinv
      · cases hf : findTruck tm id with
        | some t => simpa [h1, h2, hf] using hinv
        | none =>
            simp only [h1, h2, hf, if_neg, if_false]
            obtain ⟨hall, hnodup⟩ := hinv
            refine ⟨fun p hp => ?_, ?_⟩
            · rcases List.mem_cons.mp hp with h | h
              · subst h
                exact ⟨h1, not_lt.mp h2⟩
              · exact hall p h
            · rw [List.map_cons]
              exact List.nodup_cons.mpr ⟨findTruck_eq_none.mp hf, hnodup⟩
  · rw [getTruck_state]
    exact hinv
  · rcases updateTruckCargo_state_cases tm id cargo with hs | ⟨hc, hs⟩
    · rw [hs]; exact hinv
    · rw [hs]; exact inv_setCargo hinv hc id
  · rcases removeTruck_state_cases tm id with hs | hs
    · rw [hs]; exact hinv
    · rw [hs]; exact inv_eraseKey hinv id

theorem inv_preserved_witness :
    Inv NewTruckManager ∧
    Inv (AddTruck [("a", { ID := "a", Cargo := 1 })] "b" 2).2 := by
  have h := inv_preserved
  exact ⟨h.1,
    (h.2 [("a", { ID := "a", Cargo := 1 })] "b" 2 (by decide)).1⟩

theorem keysMatch_setCargo {tm : truckManager} (h : KeysMatch tm)
    (id : String) (c : Int) : KeysMatch (setCargo tm id c) := by
  intro p hp
  obtain ⟨q, hq, h1, h2, _⟩ := mem_setCargo hp
  rw [h2, h1]
  exact h q hq

/-- Every reachable registry stores each record under its own `ID`:
`KeysMatch` holds initially and is preserved by all four operations,
which justifies assuming it about "every registry containing `id`". -/
theorem keysMatch_preserved :
    KeysMatch NewTruckManager ∧
    ∀ tm id cargo, KeysMatch tm →
      KeysMatch (AddTruck tm id cargo).2 ∧
      KeysMatch (GetTruck tm id).2 ∧
      KeysMatch (UpdateTruckCargo tm id cargo).2 ∧
      KeysMatch (RemoveTruck tm id).2 := by
  constructor
  · intro p hp
    simp [NewTruckManager] at hp
  intro tm id cargo hkm
  refine ⟨?_, ?_, ?_, ?_⟩
  · rcases addTruck_state_cases tm id cargo with hs | hs
    · rw [hs]; exact hkm
    · rw [hs]
      intro p hp
      rcases List.mem_cons.mp hp with h | h
      · rw [h]
      · exact hkm p h
  · rw [getTruck_state]
    exact hkm
  · rcases updateTruckCargo_state_cases tm id cargo with hs | ⟨_, hs⟩
    · rw [hs]; exact hkm
    · rw [hs]; exact keysMatch_setCargo hkm id cargo
  · rcases removeTruck_state_cases tm id with hs | hs
    · rw [hs]; exact hkm
    · rw [hs]
      intro p hp
      exact hkm p ((eraseKey_sublist tm id).subset hp)

/-- C5: if the registry (in a reachable, well-formed state) contains `id`
and `newCargo ≥ 0`, then `UpdateTruckCargo id newCargo` succeeds, a
subsequent `GetTruck id` returns `{id, newCargo}`, and every other key
still maps to exactly what it mapped to before. -/
theorem updateTruckCargo_spec (tm : truckManager) (id : String) (c : Int)
    (t : Truck) (hkm : KeysMatch tm) (hinv : Inv tm)
    (hf : findTruck tm id = some t) (hc : 0 ≤ c) :
    (UpdateTruckCargo tm id c).1 = .ok () ∧
    (GetTruck (UpdateTruckCargo tm id c).2 id).1 =
      .ok { ID := id, Cargo := c } ∧
    ∀ k, k ≠ id →
      findTruck (UpdateTruckCargo tm id c).2 k = findTruck tm k := by
  have hmem := findTruck_mem hf
  have hid : id ≠ "" := (hinv.1 _ hmem).1
  have htid : t.ID = id := hkm _ hmem
  have hstate : (UpdateTruckCargo tm id c).2 = setCargo tm id c := by
    simp [UpdateTruckCargo, hid, not_lt.mpr hc, hf]
  refine ⟨by simp [UpdateTruckCargo, hid, not_lt.mpr hc, hf], ?_, ?_⟩
  · rw [hstate]
    have hg : findTruck (setCargo tm id c) id =
        some { ID := id, Cargo := c } := by
      rw [findTruck_setCargo_self, hf]
      simp [htid]
    simp [GetTruck, hid, hg]
  · intro k hk
    rw [hstate]
    exact findTruck_setCargo_ne tm c hk

theorem updateTruckCargo_spec_witness :
    (UpdateTruckCargo [("a", { ID := "a", Cargo := 1 }),
      ("b", { ID := "b", Cargo := 4 })] "a" 7).1 = .ok () ∧
    (GetTruck (UpdateTruckCargo [("a", { ID := "a", Cargo := 1 }),
      ("b", { ID := "b", Cargo := 4 })] "a" 7).2 "a").1 =
      .ok { ID := "a", Cargo := 7 } ∧
    findTruck (UpdateTruckCargo [("a", { ID := "a", Cargo := 1 }),
      ("b", { ID := "b", Cargo := 4 })] "a" 7).2 "b" =
      findTruck [("a", { ID := "a", Cargo := 1 }),
        ("b", { ID := "b", Cargo := 4 })] "b" := by
  have h := updateTruckCargo_spec
    [("a", { ID := "a", Cargo := 1 }), ("b", { ID := "b", Cargo := 4 })]
    "a" 7 { ID := "a", Cargo := 1 } (by decide) (by decide) rfl (by decide)
  exact ⟨h.1, h.2.1, h.2.2 "b" (by decide)⟩

theorem addAll_cons (tm : truckManager) (op : String × Int)
    (rest : List (String × Int)) :
    addAll tm (op :: rest) = addAll (AddTruck tm op.1 op.2).2 rest := rfl

theorem findTruck_addAll_of_not_mem (ops : List (String × Int))
    (tm : truckManager) (k : String) (hk : k ∉ ops.map Prod.fst) :
    findTruck (addAll tm ops) k = findTruck tm k := by
  induction ops generalizing tm with
  | nil => rfl
  | cons op rest ih =>
      simp only [List.map_cons, List.mem_cons, not_or] at hk
      rw [addAll_cons]
      rcases addTruck_state_cases tm op.1 op.2 with hs | hs
      · rw [hs]
        exact ih tm hk.2
      · rw [hs, ih _ hk.2, findTruck_cons]
        exact if_neg fun h => hk.1 h.symm

/-- C9: concurrent `AddTruck` calls are serialised by the write lock, so a
run with N goroutines is modelled as executing the N atomic adds in some
arbitrary order; for every such order of pairwise-distinct non-empty ids
with non-negative cargos, all absent initially, afterwards every id is
present with its own cargo. -/
theorem concurrent_adds (ops : List (String × Int)) (tm : truckManager)
    (hnd : (ops.map Prod.fst).Nodup)
    (hval : ∀ op ∈ ops, op.1 ≠ "" ∧ 0 ≤ op.2)
    (habs : ∀ op ∈ ops, findTruck tm op.1 = none) :
    ∀ op ∈ ops, findTruck (addAll tm ops) op.1 =
      some { ID := op.1, Cargo := op.2 } := by
  induction ops generalizing tm with
  | nil =>
      intro op h
      simp at h
  | cons hd rest ih =>
      intro op hop
      have hhd := hval hd (List.mem_cons_self _ _)
      have hfh := habs hd (List.mem_cons_self _ _)
      have hstep : (AddTruck tm hd.1 hd.2).2 =
          (hd.1, { ID := hd.1, Cargo := hd.2 }) :: tm := by
        simp [AddTruck, hhd.1, not_lt.mpr hhd.2, hfh]
      rw [addAll_cons, hstep]
      rw [List.map_cons] at hnd
      have hnd1 := List.nodup_cons.mp hnd
      rcases List.mem_cons.mp hop with rfl | hop
      · rw [findTruck_addAll_of_not_mem rest _ op.1 hnd1.1]
        simp [findTruck]
      · refine ih _ hnd1.2 (fun q hq => hval q (List.mem_cons_of_mem _ hq))
          (fun q hq => ?_) op hop
        have hq1 : hd.1 ≠ q.1 := by
          intro h
          exact hnd1.1 (h ▸ List.mem_map_of_mem Prod.fst hq)
        rw [findTruck_cons, if_neg hq1]
        exact habs q (List.mem_cons_of_mem _ hq)

theorem concurrent_adds_witness :
    findTruck (addAll [] [("t1", 10), ("t2", 20), ("t3", 30)]) "t2" =
      some { ID := "t2", Cargo := 20 } :=
  concurrent_adds [("t1", 10), ("t2", 20), ("t3", 30)] []
    (by decide) (by decide) (fun op _ => rfl) ("t2", 20) (by decide)

end Fleet
